import Mathlib

/-!
Verification of the ivc_ragbot RAG pipeline.

This file gives a shallow embedding of the Python sources
`rag_bot/document_processor.py`, `rag_bot/vector_store.py` and `rag_bot/bot.py`
and proves properties of the embedded definitions.

Strings are modelled as `List Char` (one element per Python character).
Python slice indices may be negative, so loop indices are `Int` and slice
bounds are normalised exactly as CPython does. The chunking `while` loop of
`split_text_into_chunks` carries no termination guarantee, so it is embedded
with explicit fuel: a `none` result means the loop was still running when the
fuel ran out. External collaborators (Telegram transport, Groq LLM, ChromaDB
nearest-neighbour search, sentence-transformers embeddings) are parameters or
spec-modelled stubs, marked as such.
-/

/-- Python slice-index normalisation: a possibly negative index `i` into a
sequence of length `n` is resolved to a `Nat` in `[0, n]` exactly as CPython
resolves slice bounds (negative indices count from the end, then both ends are
clamped into range). -/
def pyNorm (n : Nat) (i : Int) : Nat :=
  if i < 0 then ((n : Int) + i).toNat else min i.toNat n

/-- Python substring `s[a:b]` with slice-index normalisation. -/
def pySlice (s : List Char) (a b : Int) : List Char :=
  (s.take (pyNorm s.length b)).drop (pyNorm s.length a)

/-- Whether `sub` occurs in `s` at position `i`: the `sub.length` characters of
`s` starting at `i` are exactly `sub`. -/
def matchesAt (s sub : List Char) (i : Nat) : Bool :=
  decide ((s.drop i).take sub.length = sub)

/-- Python `s.rfind(sub, a, b)`: the greatest index `i` with `lo ≤ i`,
`i + sub.length ≤ hi` and `sub` occurring at `i`, where `lo`, `hi` are the
slice-normalised bounds; `none` models Python's `-1` (no occurrence). -/
def pyRfind (s sub : List Char) (a b : Int) : Option Nat :=
  let lo := pyNorm s.length a
  let hi := pyNorm s.length b
  let g := Nat.findGreatest
    (fun i => lo ≤ i ∧ i + sub.length ≤ hi ∧ matchesAt s sub i = true) hi
  if lo ≤ g ∧ g + sub.length ≤ hi ∧ matchesAt s sub g = true then some g else none

/-- The delimiter list of `split_text_into_chunks`, in source priority order:
period-space, exclamation-space, question-space, blank line, single newline. -/
def pyDelims : List (List Char) :=
  [['.', ' '], ['!', ' '], ['?', ' '], ['\n', '\n'], ['\n']]

/-- The `for punct in [...]` loop of `split_text_into_chunks`: the first
delimiter in priority order with an occurrence in the window wins, and the cut
is `last_punct + len(punct)` for that delimiter's last occurrence. -/
def firstDelimHit (s : List Char) (a b : Int) : List (List Char) → Option Nat
  | [] => none
  | d :: ds =>
    match pyRfind s d a b with
    | some i => some (i + d.length)
    | none => firstDelimHit s a b ds

/-- Whitespace recognised by the model of Python `str.strip`. -/
def pyIsSpace (c : Char) : Bool :=
  c == ' ' || c == '\t' || c == '\n' || c == '\r'

/-- Python `s.strip()`: drop whitespace from both ends. -/
def pyStrip (s : List Char) : List Char :=
  ((s.dropWhile pyIsSpace).reverse.dropWhile pyIsSpace).reverse

/-- End-of-window computation of one iteration of the chunking loop
(document_processor.py lines 163-173): `end = start + chunk_size`; when the
window does not reach the end of the text, the cut moves to the last occurrence
of the first delimiter in priority order found in the window. -/
def windowEnd (text : List Char) (chunkSize : Nat) (start : Int) : Int :=
  let e0 : Int := start + (chunkSize : Int)
  if e0 < (text.length : Int) then
    match firstDelimHit text start e0 pyDelims with
    | some m => (m : Int)
    | none => e0
  else e0

/-- The chunk extracted by one iteration: `text[start:end].strip()`. -/
def chunkAt (text : List Char) (chunkSize : Nat) (start : Int) : List Char :=
  pyStrip (pySlice text start (windowEnd text chunkSize start))

/-- The `while start < len(text)` loop of `split_text_into_chunks`, with
explicit fuel: the source loop has no termination guarantee and `none` means
the fuel ran out while the loop was still going. Each iteration extracts the
window's chunk, appends it when non-empty, and moves `start` to
`end - chunk_overlap` with no clamping, exiting when `start >= len(text)`. -/
def splitLoop (text : List Char) (chunkSize overlap : Nat) :
    Nat → Int → List (List Char) → Option (List (List Char))
  | 0, _, _ => none
  | fuel + 1, start, acc =>
    if start < (text.length : Int) then
      let acc2 :=
        if (chunkAt text chunkSize start).isEmpty then acc
        else acc ++ [chunkAt text chunkSize start]
      let start2 := windowEnd text chunkSize start - (overlap : Int)
      if (text.length : Int) ≤ start2 then some acc2
      else splitLoop text chunkSize overlap fuel start2 acc2
    else some acc

/-- DocumentProcessor.split_text_into_chunks: empty text returns the empty
list at once; otherwise run the chunking loop from `start = 0`. -/
def splitTextIntoChunks (fuel : Nat) (text : List Char)
    (chunkSize overlap : Nat) : Option (List (List Char)) :=
  if text.isEmpty then some [] else splitLoop text chunkSize overlap fuel 0 []

/-- Spec reading of the boundary law of claim C3: the rightmost cut position of
ANY of the five sentence delimiters occurring inside the window, with no
priority among delimiter kinds. -/
def rightmostAnyDelimEnd (s : List Char) (a b : Int) : Option Nat :=
  (pyDelims.filterMap (fun d => (pyRfind s d a b).map (fun i => i + d.length))).max?

/-- Whether delimiter `d` occurs (entirely) inside the window `[a, b)` of `s`. -/
def hasDelimOcc (s d : List Char) (a b : Nat) : Bool :=
  (List.range (b + 1)).any
    (fun i => decide (a ≤ i) && decide (i + d.length ≤ b) && matchesAt s d i)

/-- A stored vector-index entry: chunk text plus the metadata written by
`handle_document` (`source` file name and `chunk_index`). The embedding vector
and the UUID are kept by the external ChromaDB backend and play no role in the
claims, so they are not carried here. -/
structure Entry where
  doc : List Char
  source : List Char
  chunkIndex : Nat
deriving DecidableEq

/-- One formatted result of VectorStore.search: `document`, metadata fields. -/
structure SearchResult where
  document : List Char
  source : List Char
  chunkIndex : Nat
deriving DecidableEq

/-- The vector-store state: each user's collection contents, `none` when the
collection does not exist. The source keeps a cache dict `self.collections`
over the persistent ChromaDB client; every cache insert and delete mirrors the
client, so the two layers are collapsed into one map. -/
abbrev VSState := Int → Option (List Entry)

/-- Pointwise map update, as a Python dict assignment `m[u] = x`. -/
def upd {α : Type} (f : Int → α) (u : Int) (x : α) : Int → α :=
  fun v => if v = u then x else f v

/-- VectorStore.get_or_create_collection: return the user's collection, lazily
creating an empty one when it does not exist. -/
def getOrCreateCollection (σ : VSState) (u : Int) : VSState × List Entry :=
  match σ u with
  | some es => (σ, es)
  | none => (upd σ u (some []), [])

/-- Modelled from the spec: the external ChromaDB `collection.query`
nearest-neighbour call is not code of this repository; per the spec it returns
the `k` nearest stored entries, fewer when the collection holds fewer. The
distance ordering is irrelevant to every claim below, so the model returns the
first `min k count` entries. -/
def chromaQueryModel (es : List Entry) (k : Nat) : List Entry := es.take k

/-- VectorStore.search: get or create the user's collection, run the
nearest-neighbour query, format each hit as a `SearchResult`. The query text
only feeds the external embedding model, which the formatting does not touch. -/
def searchStore (σ : VSState) (u : Int) (query : List Char) (k : Nat) :
    VSState × List SearchResult :=
  let p := getOrCreateCollection σ u
  (p.1, (chromaQueryModel p.2 k).map
    (fun e => SearchResult.mk e.doc e.source e.chunkIndex))

/-- VectorStore.clear_user_collection: delete the user's collection; a missing
collection is caught and ignored (idempotent). -/
def clearUserCollection (σ : VSState) (u : Int) : VSState := upd σ u none

/-- VectorStore.get_collection_count: get or create the collection, count it. -/
def getCollectionCount (σ : VSState) (u : Int) : VSState × Nat :=
  let p := getOrCreateCollection σ u
  (p.1, p.2.length)

/-- VectorStore.add_documents: no-op on the empty chunk list, else get or
create the collection and append one entry per chunk. -/
def addDocuments (σ : VSState) (u : Int) (entries : List Entry) : VSState :=
  if entries = [] then σ
  else
    let p := getOrCreateCollection σ u
    upd p.1 u (some (p.2 ++ entries))

/-- The fixed per-user collection name `f"user_{user_id}"` of
get_or_create_collection and clear_user_collection. -/
def collectionName (u : Int) : List Char := "user_".toList ++ (toString u).toList

/-- A conversation-memory message: the source appends LangChain `HumanMessage`
and `AIMessage` objects and also tolerates a legacy plain-dict shape with a
`role` and `content` when reading history back. -/
inductive Msg where
  | human (content : List Char)
  | ai (content : List Char)
  | dictMsg (role content : List Char)
deriving DecidableEq

/-- A message sent to the LLM: system, user or assistant role. -/
inductive LMsg where
  | system (content : List Char)
  | human (content : List Char)
  | ai (content : List Char)
deriving DecidableEq

/-- The history-conversion loop body of handle_message (bot.py lines 307-317):
`HumanMessage` and `AIMessage` objects pass through; a legacy dict is converted
by its role and silently dropped for any other role. -/
def convMsg : Msg → List LMsg
  | Msg.human c => [LMsg.human c]
  | Msg.ai c => [LMsg.ai c]
  | Msg.dictMsg role c =>
    if role = "user".toList then [LMsg.human c]
    else if role = "assistant".toList then [LMsg.ai c]
    else []

/-- Whether a memory message is a plain conversation turn (the only shapes this
program itself ever writes into memory). -/
def isTurn : Msg → Bool
  | Msg.human _ => true
  | Msg.ai _ => true
  | Msg.dictMsg _ _ => false

/-- The one-to-one image of a plain conversation turn among LLM messages
(junk value on the legacy-dict shape, which `isTurn` excludes). -/
def msgToL : Msg → LMsg
  | Msg.human c => LMsg.human c
  | Msg.ai c => LMsg.ai c
  | Msg.dictMsg _ c => LMsg.human c

/-- The per-process bot state: per-user vector collections, per-user
conversation memories, per-user temporary upload paths (RAGBot.__init__). -/
structure BotState where
  vs : Int → Option (List Entry)
  mems : Int → Option (List Msg)
  tempFiles : Int → Option (List Char)

/-- The conversation memory of a user read as a sequence: a user not yet seen
has the empty history (RAGBot.get_memory auto-creates `[]`). -/
def memOf (st : BotState) (u : Int) : List Msg := (st.mems u).getD []

/-- Python `l[-n:]`: the last `n` elements (all of them when fewer). -/
def pyTail {α : Type} (n : Nat) (l : List α) : List α := l.drop (l.length - n)

/-- The memory cap of handle_message (bot.py lines 332-334): after appending,
a history longer than 10 is cut to its last 10 entries. -/
def memTrunc (l : List Msg) : List Msg := if l.length > 10 then pyTail 10 l else l

/-- The constant head of the system prompt of handle_message, up to and
including the line introducing the retrieved context. -/
def promptHead : List Char :=
  ("Ты - полезный AI-ассистент, который отвечает на вопросы пользователей на основе предоставленного контекста из документов.\n\nИнструкции:\n1. Отвечай ТОЛЬКО на основе предоставленного контекста\n2. Если в контексте нет информации для ответа, честно скажи об этом\n3. Отвечай на русском языке\n4. Будь точным и информативным\n5. Используй контекст предыдущих сообщений для лучшего понимания\n\nКонтекст из документов:\n").toList

/-- Separator-joined concatenation, as Python `sep.join(parts)`. -/
def joinSep (sep : List Char) (parts : List (List Char)) : List Char :=
  List.intercalate sep parts

/-- The user-visible outcome of one handle_message call. -/
inductive AnswerOutcome where
  | rejectedShort
  | noDocuments
  | noResults
  | answered (reply : List Char)
  | generationError (msg : List Char)
deriving DecidableEq

/-- What one handle_message call did: outcome, whether the vector search ran,
whether the LLM was invoked, and the exact message list sent to it. -/
structure AnswerRecord where
  outcome : AnswerOutcome
  searchCalled : Bool
  llmCalled : Bool
  llmMessages : Option (List LMsg)
deriving DecidableEq

/-- RAGBot.handle_message: reject questions whose stripped length is under 3;
reply "ingest first" when the user's collection count is 0; search top 3; on an
empty result report no relevant information; else build
[system prompt with double-newline-joined chunk texts, last 6 history messages,
new question], invoke the LLM (a parameter, erroring like a raised exception),
and on success append the question/answer pair and cap the history at 10. -/
def handleMessage (st : BotState) (u : Int) (question : List Char)
    (llm : List LMsg → Except (List Char) (List Char)) : BotState × AnswerRecord :=
  if (pyStrip question).length < 3 then
    (st, AnswerRecord.mk AnswerOutcome.rejectedShort false false none)
  else
    let c := getCollectionCount st.vs u
    let st1 : BotState := BotState.mk c.1 st.mems st.tempFiles
    if c.2 = 0 then
      (st1, AnswerRecord.mk AnswerOutcome.noDocuments false false none)
    else
      let sr := searchStore st1.vs u question 3
      let st2 : BotState := BotState.mk sr.1 st1.mems st1.tempFiles
      if sr.2 = [] then
        (st2, AnswerRecord.mk AnswerOutcome.noResults true false none)
      else
        let ctx := joinSep ['\n', '\n'] (sr.2.map SearchResult.document)
        let sys := promptHead ++ ctx
        let hist := memOf st2 u
        let st3 : BotState := BotState.mk st2.vs (upd st2.mems u (some hist)) st2.tempFiles
        let msgs := LMsg.system sys :: ((pyTail 6 hist).flatMap convMsg ++ [LMsg.human question])
        match llm msgs with
        | Except.error e =>
          (st3, AnswerRecord.mk (AnswerOutcome.generationError e) true true (some msgs))
        | Except.ok ans =>
          let hist2 := memTrunc (hist ++ [Msg.human question, Msg.ai ans])
          (BotState.mk st3.vs (upd st3.mems u (some hist2)) st3.tempFiles,
           AnswerRecord.mk (AnswerOutcome.answered ans) true true (some msgs))

/-- The user-visible outcome of one handle_document call. -/
inductive IngestOutcome where
  | extractError (e : List Char)
  | tooShort
  | noChunks
  | success (charCount chunkCount : Nat)
deriving DecidableEq

/-- config.CHUNK_SIZE. -/
def CHUNK_SIZE : Nat := 1000

/-- config.CHUNK_OVERLAP. -/
def CHUNK_OVERLAP : Nat := 200

/-- The temporary upload path `f"./temp_{user_id}_{file_name}"`. -/
def tempPath (u : Int) (fileName : List Char) : List Char :=
  "./temp_".toList ++ (toString u).toList ++ ("_".toList ++ fileName)

/-- RAGBot.handle_document after a successful download: record the temp file,
then extract (the extractor runs outside this repository's pipeline core, so
its verdict is a parameter; an `error` is the caught exception path), reject
stripped text under 50 characters, chunk with the configured size and overlap,
reject an empty chunk list, and only then clear the user's old collection,
add the new chunks with `{source, chunk_index}` metadata, and clear the user's
conversation memory. `none` means the chunking loop outran its fuel. -/
def handleDocument (st : BotState) (u : Int) (fileName : List Char)
    (extractResult : Except (List Char) (List Char)) (fuel : Nat) :
    Option (BotState × IngestOutcome) :=
  let st0 : BotState := BotState.mk st.vs st.mems
    (upd st.tempFiles u (some (tempPath u fileName)))
  match extractResult with
  | Except.error e => some (st0, IngestOutcome.extractError e)
  | Except.ok text =>
    if (pyStrip text).length < 50 then some (st0, IngestOutcome.tooShort)
    else
      match splitTextIntoChunks fuel text CHUNK_SIZE CHUNK_OVERLAP with
      | none => none
      | some chunks =>
        if chunks = [] then some (st0, IngestOutcome.noChunks)
        else
          let st1 : BotState := BotState.mk (clearUserCollection st0.vs u) st0.mems st0.tempFiles
          let entries := chunks.mapIdx (fun i c => Entry.mk c fileName i)
          let st2 : BotState := BotState.mk (addDocuments st1.vs u entries) st1.mems st1.tempFiles
          let st3 : BotState := BotState.mk st2.vs (upd st2.mems u none) st2.tempFiles
          some (st3, IngestOutcome.success text.length chunks.length)

/-- RAGBot.clear_command: clear the user's collection, delete the user's
conversation memory, delete the user's temp-file entry. -/
def clearCommand (st : BotState) (u : Int) : BotState :=
  BotState.mk (clearUserCollection st.vs u) (upd st.mems u none) (upd st.tempFiles u none)

/-- RAGBot.get_memory as a state operation: auto-create the empty history on
first access and return the user's history. -/
def getMemoryOp (st : BotState) (u : Int) : BotState × List Msg :=
  (BotState.mk st.vs (upd st.mems u (some (memOf st u))) st.tempFiles, memOf st u)

/-- Concrete input on which the source chunking loop never terminates with
`chunk_size = 4`, `chunk_overlap = 2`: the text `"a. xxxx"`. -/
def loopText : List Char := ['a', '.', ' ', 'x', 'x', 'x', 'x']

/-- Concrete window refuting the rightmost-any-delimiter boundary law: the
text `"a. b! cccc"`. -/
def c3text : List Char := ['a', '.', ' ', 'b', '!', ' ', 'c', 'c', 'c', 'c']

/-- One successful Answer interaction as a state transformer: handle_message
with a completion service that returns `qa.2` for the question `qa.1`. -/
def answerStep (st : BotState) (u : Int) (qa : List Char × List Char) : BotState :=
  (handleMessage st u qa.1 (fun _ => Except.ok qa.2)).1

/-- Concrete stored entry used by witnesses. -/
def wEntry : Entry := Entry.mk ['h', 'i'] ['f'] 0

/-- Concrete bot state used by witnesses: user 0 has one indexed entry, no
memory, no temp file. -/
def wState : BotState :=
  BotState.mk (fun v => if v = 0 then some [wEntry] else none)
    (fun _ => none) (fun _ => none)

/-- Concrete empty bot state used by witnesses. -/
def wEmptyState : BotState :=
  BotState.mk (fun _ => none) (fun _ => none) (fun _ => none)

/-- The state reached from `wState` after a failed ingest recorded only the
temp-file path for user 0 (nothing else may change). -/
def wStateAfterTemp : BotState :=
  BotState.mk wState.vs wState.mems
    (upd wState.tempFiles 0 (some (tempPath 0 ['f'])))

/-- A completion service that always succeeds with the reply `"ok"`. -/
def wLlmOk : List LMsg → Except (List Char) (List Char) :=
  fun _ => Except.ok ['o', 'k']

/-- One iteration of the chunking loop on `loopText` from `start = 1` cuts at
the period-space delimiter, giving `end = 3` and next start `3 - 2 = 1` again:
the loop state repeats forever (only the accumulator grows). -/
theorem splitLoop_loopText_step (fuel : Nat) (acc : List (List Char)) :
    splitLoop loopText 4 2 (fuel + 1) 1 acc = splitLoop loopText 4 2 fuel 1 (acc ++ [['.']]) :=
  rfl

/-- The chunking loop on `loopText` from `start = 1` exhausts any amount of
fuel: it never terminates. -/
theorem splitLoop_loopText_none (fuel : Nat) :
    ∀ acc, splitLoop loopText 4 2 fuel 1 acc = none := by
  induction fuel with
  | zero => intro acc; rfl
  | succ n ih =>
    intro acc
    rw [splitLoop_loopText_step]
    exact ih (acc ++ [['.']])

/-- Claim C1: the claim states that for `0 ≤ overlap < chunk_size` the window
start is clamped so it never goes backward past the previous start and the
chunking loop terminates on every input. The code has no clamp at all
(`start = end - chunk_overlap`, document_processor.py line 181), and on the
text `"a. xxxx"` with `chunk_size = 4`, `overlap = 2` (a valid configuration)
the sentence cut gives `end = 3`, so the next start is `1`, from which the cut
is again `3`: the loop runs forever. This theorem evaluates the embedded code
at that failing input: no amount of fuel makes the loop finish. -/
theorem c1_chunking_loop_diverges (fuel : Nat) :
    splitTextIntoChunks fuel loopText 4 2 = none := by
  cases fuel with
  | zero => rfl
  | succ n => exact splitLoop_loopText_none n [['a', '.']]

/-- Slice normalisation of a natural index is a clamp to the length. -/
theorem pyNorm_coe (n m : Nat) : pyNorm n (m : Int) = min m n := by
  unfold pyNorm
  split <;> omega

/-- A successful `rfind` returns an occurrence inside the normalised window,
and the greatest one. -/
theorem pyRfind_some {s d : List Char} {a b : Int} {m : Nat}
    (h : pyRfind s d a b = some m) :
    (pyNorm s.length a ≤ m ∧ m + d.length ≤ pyNorm s.length b ∧
      matchesAt s d m = true) ∧
    ∀ j, pyNorm s.length a ≤ j → j + d.length ≤ pyNorm s.length b →
      matchesAt s d j = true → j ≤ m := by
  simp only [pyRfind] at h
  split at h
  case isTrue hg =>
    injection h with hm
    subst hm
    refine ⟨hg, ?_⟩
    intro j hj1 hj2 hj3
    by_contra hlt
    push_neg at hlt
    exact Nat.findGreatest_is_greatest hlt
      (le_trans (Nat.le_add_right j d.length) hj2) ⟨hj1, hj2, hj3⟩
  case isFalse => exact absurd h (by simp)

/-- A failed `rfind` means no occurrence inside the normalised window. -/
theorem pyRfind_none {s d : List Char} {a b : Int}
    (h : pyRfind s d a b = none) :
    ∀ j, pyNorm s.length a ≤ j → j + d.length ≤ pyNorm s.length b →
      matchesAt s d j ≠ true := by
  simp only [pyRfind] at h
  split at h
  case isTrue => exact absurd h (by simp)
  case isFalse hg =>
    intro j hj1 hj2 hj3
    apply hg
    exact @Nat.findGreatest_spec j
      (fun i => pyNorm s.length a ≤ i ∧ i + d.length ≤ pyNorm s.length b ∧
        matchesAt s d i = true)
      _ (pyNorm s.length b)
      (le_trans (Nat.le_add_right j d.length) hj2) ⟨hj1, hj2, hj3⟩

/-- For in-range natural bounds, window occurrence of a delimiter is exactly
success of `rfind` on that window. -/
theorem hasDelimOcc_iff_isSome {s d : List Char} {a b : Nat}
    (ha : a ≤ s.length) (hb : b ≤ s.length) :
    hasDelimOcc s d a b = true ↔ (pyRfind s d (a : Int) (b : Int)).isSome := by
  have hna : pyNorm s.length (a : Int) = a := by rw [pyNorm_coe]; omega
  have hnb : pyNorm s.length (b : Int) = b := by rw [pyNorm_coe]; omega
  constructor
  · intro h
    rw [hasDelimOcc, List.any_eq_true] at h
    obtain ⟨i, _, hp⟩ := h
    simp only [Bool.and_eq_true, decide_eq_true_eq] at hp
    obtain ⟨⟨h1, h2⟩, h3⟩ := hp
    cases hr : pyRfind s d (a : Int) (b : Int) with
    | some m => simp
    | none =>
      exact absurd h3
        (pyRfind_none hr i (by rw [hna]; exact h1) (by rw [hnb]; exact h2))
  · intro h
    cases hr : pyRfind s d (a : Int) (b : Int) with
    | none => rw [hr] at h; simp at h
    | some m =>
      obtain ⟨⟨h1, h2, h3⟩, _⟩ := pyRfind_some hr
      rw [hna] at h1
      rw [hnb] at h2
      rw [hasDelimOcc, List.any_eq_true]
      refine ⟨m, ?_, ?_⟩
      · rw [List.mem_range]; omega
      · simp only [Bool.and_eq_true, decide_eq_true_eq]
        exact ⟨⟨h1, h2⟩, h3⟩

/-- The delimiter loop either finds no delimiter at all in the window (then no
delimiter occurs there), or cuts at the greatest occurrence of the first
delimiter in priority order that occurs in the window. -/
theorem firstDelimHit_spec {s : List Char} {a b : Nat}
    (ha : a ≤ s.length) (hb : b ≤ s.length) :
    ∀ ds : List (List Char),
      (ds.find? (fun d => hasDelimOcc s d a b) = none ∧
        firstDelimHit s (a : Int) (b : Int) ds = none) ∨
      ∃ d i, ds.find? (fun d => hasDelimOcc s d a b) = some d ∧
        firstDelimHit s (a : Int) (b : Int) ds = some (i + d.length) ∧
        (a ≤ i ∧ i + d.length ≤ b ∧ matchesAt s d i = true) ∧
        ∀ j, a ≤ j → j + d.length ≤ b → matchesAt s d j = true → j ≤ i := by
  have hna : pyNorm s.length (a : Int) = a := by rw [pyNorm_coe]; omega
  have hnb : pyNorm s.length (b : Int) = b := by rw [pyNorm_coe]; omega
  intro ds
  induction ds with
  | nil => left; exact ⟨rfl, rfl⟩
  | cons d ds ih =>
    cases hr : pyRfind s d (a : Int) (b : Int) with
    | some m =>
      right
      obtain ⟨⟨h1, h2, h3⟩, hgr⟩ := pyRfind_some hr
      rw [hna] at h1
      rw [hnb] at h2
      have hocc : hasDelimOcc s d a b = true := by
        rw [hasDelimOcc_iff_isSome ha hb, hr]; rfl
      refine ⟨d, m, ?_, ?_, ⟨h1, h2, h3⟩, ?_⟩
      · exact List.find?_cons_of_pos _ hocc
      · simp [firstDelimHit, hr]
      · intro j hj1 hj2 hj3
        exact hgr j (by rw [hna]; exact hj1) (by rw [hnb]; exact hj2) hj3
    | none =>
      have hocc : hasDelimOcc s d a b = false := by
        cases hc : hasDelimOcc s d a b
        · rfl
        · rw [hasDelimOcc_iff_isSome ha hb, hr] at hc
          simp at hc
      cases ih with
      | inl hn =>
        left
        refine ⟨?_, ?_⟩
        · rw [List.find?_cons_of_neg _ (by simp [hocc])]
          exact hn.1
        · simp [firstDelimHit, hr, hn.2]
      | inr hex =>
        right
        obtain ⟨d2, i, hfind, hhit, hocc2, hmax⟩ := hex
        refine ⟨d2, i, ?_, ?_, hocc2, hmax⟩
        · rw [List.find?_cons_of_neg _ (by simp [hocc])]
          exact hfind
        · simp [firstDelimHit, hr, hhit]

/-- Claim C3 counterexample: on the text `"a. b! cccc"` with window
`[0, 0 + 7]` (which does not reach the end of the text), the rightmost
sentence delimiter in the window is the exclamation-space at 4 with cut
position 6, but the code cuts at 3: the priority loop commits to the
period-space delimiter first and never looks at the later exclamation. -/
theorem c3_counterexample :
    (0 : Int) + 7 < (c3text.length : Int) ∧
    windowEnd c3text 7 0 = 3 ∧
    rightmostAnyDelimEnd c3text 0 7 = some 6 ∧
    windowEnd c3text 7 0 ≠ 6 := by decide

/-- Claim C3 (amended): for a window `[start, start + chunk_size]` that does
not reach the end of the text, when no sentence delimiter occurs in the window
the boundary is exactly `start + chunk_size`; otherwise the boundary is the
greatest occurrence of the FIRST delimiter in priority order
(period-space, exclamation-space, question-space, blank line, newline) that
occurs in the window — not of the rightmost among all delimiters. -/
theorem c3_priority_boundary (text : List Char) (chunkSize start : Nat)
    (h : start + chunkSize < text.length) :
    (pyDelims.find? (fun d => hasDelimOcc text d start (start + chunkSize)) = none →
      windowEnd text chunkSize (start : Int) = (start : Int) + (chunkSize : Int)) ∧
    ∀ d, pyDelims.find? (fun d => hasDelimOcc text d start (start + chunkSize)) = some d →
      ∃ i, (start ≤ i ∧ i + d.length ≤ start + chunkSize ∧ matchesAt text d i = true) ∧
        (∀ j, start ≤ j → j + d.length ≤ start + chunkSize →
          matchesAt text d j = true → j ≤ i) ∧
        windowEnd text chunkSize (start : Int) = (i : Int) + (d.length : Int) := by
  have ha : start ≤ text.length := by omega
  have hb : start + chunkSize ≤ text.length := by omega
  have hcast : ((start : Int) + (chunkSize : Int)) = ((start + chunkSize : Nat) : Int) := by
    omega
  have hwe : windowEnd text chunkSize (start : Int) =
      match firstDelimHit text (start : Int) ((start + chunkSize : Nat) : Int) pyDelims with
      | some m => (m : Int)
      | none => ((start + chunkSize : Nat) : Int) := by
    unfold windowEnd
    rw [if_pos (by omega)]
    rw [hcast]
  rcases firstDelimHit_spec ha hb pyDelims with ⟨hf, hn⟩ | ⟨d, i, hfind, hhit, hocc, hmax⟩
  · constructor
    · intro _
      rw [hwe, hn, hcast]
    · intro d hd
      rw [hf] at hd
      exact absurd hd (by simp)
  · constructor
    · intro hnone
      rw [hfind] at hnone
      exact absurd hnone (by simp)
    · intro d2 hd2
      rw [hfind] at hd2
      injection hd2 with hdd
      subst hdd
      refine ⟨i, hocc, hmax, ?_⟩
      rw [hwe, hhit]
      push_cast
      ring

/-- Claim C3 amended-theorem witness, at the counterexample window: the chosen
delimiter is the period-space and the boundary is its greatest occurrence. -/
theorem c3_priority_boundary_witness :
    (0 + 7 < c3text.length) ∧
    (∀ d, pyDelims.find? (fun d => hasDelimOcc c3text d 0 (0 + 7)) = some d →
      ∃ i, (0 ≤ i ∧ i + d.length ≤ 0 + 7 ∧ matchesAt c3text d i = true) ∧
        (∀ j, 0 ≤ j → j + d.length ≤ 0 + 7 →
          matchesAt c3text d j = true → j ≤ i) ∧
        windowEnd c3text 7 ((0 : Nat) : Int) = (i : Int) + (d.length : Int)) :=
  ⟨by decide, (c3_priority_boundary c3text 7 0 (by decide)).2⟩

/-- Slice normalisation never exceeds the length. -/
theorem pyNorm_le (n : Nat) (i : Int) : pyNorm n i ≤ n := by
  unfold pyNorm
  split <;> omega

/-- Moving a slice bound right by `c` moves its normalisation right by at most
`c`. -/
theorem pyNorm_add_le (n : Nat) (a : Int) (c : Nat) :
    pyNorm n (a + (c : Int)) ≤ pyNorm n a + c := by
  unfold pyNorm
  split <;> split <;> omega

/-- A Python slice is no longer than the distance of its normalised bounds. -/
theorem length_pySlice_le (s : List Char) (a b : Int) :
    (pySlice s a b).length ≤ pyNorm s.length b - pyNorm s.length a := by
  unfold pySlice
  rw [List.length_drop, List.length_take]
  omega

/-- Stripping never lengthens a string. -/
theorem pyStrip_length_le (s : List Char) : (pyStrip s).length ≤ s.length := by
  have h1 : (s.dropWhile pyIsSpace).length ≤ s.length :=
    (List.dropWhile_sublist pyIsSpace).length_le
  have h2 : ((s.dropWhile pyIsSpace).reverse.dropWhile pyIsSpace).length ≤
      (s.dropWhile pyIsSpace).reverse.length :=
    (List.dropWhile_sublist pyIsSpace).length_le
  simp only [pyStrip, List.length_reverse] at *
  omega

/-- A delimiter cut position never exceeds the normalised window end. -/
theorem firstDelimHit_le {s : List Char} {a b : Int} {m : Nat} :
    ∀ ds, firstDelimHit s a b ds = some m → m ≤ pyNorm s.length b := by
  intro ds
  induction ds with
  | nil => intro h; exact absurd h (by simp [firstDelimHit])
  | cons d ds ih =>
    intro h
    rw [firstDelimHit] at h
    cases hr : pyRfind s d a b with
    | some i =>
      rw [hr] at h
      injection h with hm
      obtain ⟨⟨_, h2, _⟩, _⟩ := pyRfind_some hr
      omega
    | none =>
      rw [hr] at h
      exact ih h

/-- The sentence cut only ever shrinks the window: the normalised window end
is at most `chunk_size` past the normalised start. -/
theorem pyNorm_windowEnd_le (text : List Char) (chunkSize : Nat) (start : Int) :
    pyNorm text.length (windowEnd text chunkSize start) ≤
      pyNorm text.length start + chunkSize := by
  have hadd := pyNorm_add_le text.length start chunkSize
  simp only [windowEnd]
  split
  · cases hh : firstDelimHit text start (start + (chunkSize : Int)) pyDelims with
    | some m =>
      simp only [hh]
      have h1 := firstDelimHit_le pyDelims hh
      rw [pyNorm_coe]
      omega
    | none =>
      simp only [hh]
      exact hadd
  · exact hadd

/-- Every extracted chunk has length at most `chunk_size`. -/
theorem chunkAt_length_le (text : List Char) (chunkSize : Nat) (start : Int) :
    (chunkAt text chunkSize start).length ≤ chunkSize := by
  have h1 := pyStrip_length_le (pySlice text start (windowEnd text chunkSize start))
  have h2 := length_pySlice_le text start (windowEnd text chunkSize start)
  have h3 := pyNorm_windowEnd_le text chunkSize start
  simp only [chunkAt]
  omega

/-- Loop invariant of the chunking loop: every chunk in a finished result list
is non-empty and at most `chunk_size` long, given the same for the
accumulator. -/
theorem splitLoop_sound (text : List Char) (chunkSize overlap : Nat) :
    ∀ fuel (start : Int) (acc res : List (List Char)),
      (∀ c ∈ acc, c ≠ [] ∧ c.length ≤ chunkSize) →
      splitLoop text chunkSize overlap fuel start acc = some res →
      ∀ c ∈ res, c ≠ [] ∧ c.length ≤ chunkSize := by
  intro fuel
  induction fuel with
  | zero =>
    intro start acc res hacc h
    exact absurd h (by simp [splitLoop])
  | succ n ih =>
    intro start acc res hacc h
    have hacc2 : ∀ c ∈ (if (chunkAt text chunkSize start).isEmpty then acc
        else acc ++ [chunkAt text chunkSize start]), c ≠ [] ∧ c.length ≤ chunkSize := by
      split
      · exact hacc
      case isFalse hne =>
        intro c hc
        rcases List.mem_append.mp hc with hc | hc
        · exact hacc c hc
        · rw [List.mem_singleton] at hc
          subst hc
          refine ⟨?_, chunkAt_length_le text chunkSize start⟩
          intro hnil
          rw [hnil] at hne
          exact hne rfl
    simp only [splitLoop] at h
    split at h
    case isTrue =>
      split at h
      case isTrue =>
        injection h with h
        subst h
        exact hacc2
      case isFalse => exact ih _ _ res hacc2 h
    case isFalse =>
      injection h with h
      subst h
      exact hacc

/-- Claim C6: every chunk produced by split has length at most `chunk_size`
(the sentence cut can only shrink a window, never extend it, so the allowance
"except possibly due to sentence-boundary extension" is never needed); no
produced chunk is empty (only stripped, non-empty chunks are appended); and
split on the empty text yields the empty sequence. -/
theorem c6_chunk_shape (fuel chunkSize overlap : Nat) (text : List Char)
    (res : List (List Char))
    (h : splitTextIntoChunks fuel text chunkSize overlap = some res) :
    (∀ c ∈ res, c ≠ [] ∧ c.length ≤ chunkSize) ∧
    splitTextIntoChunks fuel [] chunkSize overlap = some [] := by
  refine ⟨?_, rfl⟩
  rw [splitTextIntoChunks] at h
  split at h
  case isTrue =>
    injection h with h
    subst h
    intro c hc
    exact absurd hc (List.not_mem_nil c)
  case isFalse =>
    exact splitLoop_sound text chunkSize overlap fuel 0 [] res (by simp) h

/-- Claim C6 witness: splitting `"ab"` with `chunk_size = 5`, `overlap = 0`
gives one chunk, and the theorem's conclusions hold at it. -/
theorem c6_chunk_shape_witness :
    splitTextIntoChunks 3 ['a', 'b'] 5 0 = some [['a', 'b']] ∧
    ((∀ c ∈ [['a', 'b']], c ≠ [] ∧ c.length ≤ 5) ∧
      splitTextIntoChunks 3 ([] : List Char) 5 0 = some []) :=
  ⟨by decide, c6_chunk_shape 3 5 0 ['a', 'b'] [['a', 'b']] (by decide)⟩

/-- Updating one user's slot leaves every other user's slot unchanged. -/
theorem upd_ne {α : Type} (f : Int → α) (u v : Int) (x : α) (h : v ≠ u) :
    upd f u x v = f v := by
  unfold upd
  rw [if_neg h]

/-- Updating the same slot twice keeps only the second value. -/
theorem upd_upd {α : Type} (f : Int → α) (u : Int) (x y : α) :
    upd (upd f u y) u x = upd f u x := by
  funext v
  unfold upd
  split <;> rfl

/-- On an existing collection, get-or-create changes nothing and returns it. -/
theorem getOrCreateCollection_of_some {σ : VSState} {u : Int} {es : List Entry}
    (h : σ u = some es) : getOrCreateCollection σ u = (σ, es) := by
  unfold getOrCreateCollection
  rw [h]

/-- The collection count is the length of the user's stored entry list. -/
theorem getCollectionCount_snd (σ : VSState) (u : Int) :
    (getCollectionCount σ u).2 = ((σ u).getD []).length := by
  unfold getCollectionCount getOrCreateCollection
  cases h : σ u <;> simp

/-- Claim C7: search returns exactly `min k count` results, so fewer than `k`
whenever the collection holds fewer than `k` entries, and the empty sequence
(never an error: the wrapper lazily creates a missing collection instead of
failing) when the user's collection does not exist or is empty. -/
theorem c7_search_cardinality (σ : VSState) (u : Int) (query : List Char) (k : Nat) :
    (searchStore σ u query k).2.length = min k ((σ u).getD []).length ∧
    (σ u = none → (searchStore σ u query k).2 = []) ∧
    ((σ u).getD [] = [] → (searchStore σ u query k).2 = []) := by
  cases h : σ u with
  | none =>
    refine ⟨?_, fun _ => ?_, fun _ => ?_⟩ <;>
      simp [searchStore, getOrCreateCollection, chromaQueryModel, h]
  | some es =>
    refine ⟨?_, ?_, ?_⟩
    · simp [searchStore, getOrCreateCollection, chromaQueryModel, h, List.length_take]
    · intro hc
      exact absurd hc (by simp)
    · intro hc
      simp only [Option.getD_some] at hc
      subst hc
      simp [searchStore, getOrCreateCollection, chromaQueryModel, h]

/-- Claim C7 witness: searching for user 0 in the empty store returns the
empty sequence, of length `min 3 0`. -/
theorem c7_search_cardinality_witness :
    (searchStore (fun _ => none) 0 ['q'] 3).2.length =
      min 3 ((((fun _ => none) : VSState) 0).getD []).length ∧
    (searchStore (fun _ => none) 0 ['q'] 3).2 = [] :=
  ⟨(c7_search_cardinality (fun _ => none) 0 ['q'] 3).1,
   (c7_search_cardinality (fun _ => none) 0 ['q'] 3).2.1 rfl⟩

/-- Claim C5: a question whose stripped length is under 3 is rejected with the
retry prompt and neither the vector search nor the LLM runs; and when the
user's collection count is 0 (a question of valid length) the reply is the
ingest-a-document-first instruction and the LLM is never invoked. -/
theorem c5_question_guards (st : BotState) (u : Int) (question : List Char)
    (llm : List LMsg → Except (List Char) (List Char)) :
    ((pyStrip question).length < 3 →
      (handleMessage st u question llm).2 =
        AnswerRecord.mk AnswerOutcome.rejectedShort false false none) ∧
    (3 ≤ (pyStrip question).length → ((st.vs u).getD []).length = 0 →
      (handleMessage st u question llm).2 =
        AnswerRecord.mk AnswerOutcome.noDocuments false false none) := by
  constructor
  · intro h
    simp only [handleMessage]
    rw [if_pos h]
  · intro h hc
    simp only [handleMessage]
    rw [if_neg (by omega)]
    rw [if_pos (by rw [getCollectionCount_snd]; exact hc)]

/-- Claim C5 witness: the 2-character question `"hi"` is rejected, and the
3-character question `"abc"` against an empty store gets the ingest-first
reply; in both runs the search and LLM flags are false and no message list was
sent. -/
theorem c5_question_guards_witness :
    (handleMessage wEmptyState 0 ['h', 'i'] wLlmOk).2 =
      AnswerRecord.mk AnswerOutcome.rejectedShort false false none ∧
    (handleMessage wEmptyState 0 ['a', 'b', 'c'] wLlmOk).2 =
      AnswerRecord.mk AnswerOutcome.noDocuments false false none :=
  ⟨(c5_question_guards wEmptyState 0 ['h', 'i'] wLlmOk).1 (by decide),
   (c5_question_guards wEmptyState 0 ['a', 'b', 'c'] wLlmOk).2 (by decide) (by decide)⟩

/-- On the main path (valid question, non-empty collection), handle_message
reduces to the prompt assembly and the LLM call: one system message holding
the prompt head and the double-newline-joined retrieved chunk texts, the last
6 history messages, the new question; on LLM failure the state only records
the (unchanged) history, on success the question/answer pair is appended and
the history capped. -/
theorem handleMessage_main {st : BotState} {u : Int} {question : List Char}
    (llm : List LMsg → Except (List Char) (List Char))
    {es : List Entry} (hvs : st.vs u = some es) (hes : es ≠ [])
    (hq : ¬ (pyStrip question).length < 3) :
    handleMessage st u question llm =
      (match llm (LMsg.system (promptHead ++
            joinSep ['\n', '\n'] ((chromaQueryModel es 3).map Entry.doc)) ::
          ((pyTail 6 (memOf st u)).flatMap convMsg ++ [LMsg.human question])) with
       | Except.error e2 =>
         (BotState.mk st.vs (upd st.mems u (some (memOf st u))) st.tempFiles,
          AnswerRecord.mk (AnswerOutcome.generationError e2) true true
            (some (LMsg.system (promptHead ++
                joinSep ['\n', '\n'] ((chromaQueryModel es 3).map Entry.doc)) ::
              ((pyTail 6 (memOf st u)).flatMap convMsg ++ [LMsg.human question]))))
       | Except.ok ans =>
         (BotState.mk st.vs
            (upd st.mems u
              (some (memTrunc (memOf st u ++ [Msg.human question, Msg.ai ans]))))
            st.tempFiles,
          AnswerRecord.mk (AnswerOutcome.answered ans) true true
            (some (LMsg.system (promptHead ++
                joinSep ['\n', '\n'] ((chromaQueryModel es 3).map Entry.doc)) ::
              ((pyTail 6 (memOf st u)).flatMap convMsg ++ [LMsg.human question]))))) := by
  have hg : getOrCreateCollection st.vs u = (st.vs, es) := getOrCreateCollection_of_some hvs
  have hlen : ¬ es.length = 0 := fun h => hes (List.length_eq_zero.mp h)
  have htake : ¬ ((chromaQueryModel es 3).map
      (fun e => SearchResult.mk e.doc e.source e.chunkIndex)) = [] := by
    simp only [chromaQueryModel, List.map_eq_nil_iff, List.take_eq_nil_iff]
    push_neg
    exact ⟨by omega, hes⟩
  simp only [handleMessage, getCollectionCount, searchStore, hg]
  rw [if_neg hq, if_neg hlen, if_neg htake]
  simp only [upd_upd, memOf, List.map_map, Function.comp_def]

/-- On a history of plain conversation turns, the conversion loop is a
one-to-one, order-preserving map (no message is dropped or duplicated). -/
theorem flatMap_convMsg_of_turns {l : List Msg} (h : ∀ m ∈ l, isTurn m = true) :
    l.flatMap convMsg = l.map msgToL := by
  induction l with
  | nil => rfl
  | cons m l ih =>
    have hm := h m (List.mem_cons_self m l)
    have hl : ∀ x ∈ l, isTurn x = true := fun x hx => h x (List.mem_cons_of_mem m hx)
    cases m with
    | human c => simp [convMsg, msgToL, ih hl]
    | ai c => simp [convMsg, msgToL, ih hl]
    | dictMsg r c => simp [isTurn] at hm

/-- Claim C8: whenever Answer reaches the completion service, the message list
sent is exactly one system instruction carrying the retrieved chunk texts
joined by double newlines, then the last up to 6 prior conversation turns in
order, then the new question as the final user message. -/
theorem c8_prompt_assembly (st : BotState) (u : Int) (question : List Char)
    (llm : List LMsg → Except (List Char) (List Char)) (es : List Entry)
    (hvs : st.vs u = some es) (hes : es ≠ [])
    (hq : ¬ (pyStrip question).length < 3)
    (hturns : ∀ m ∈ memOf st u, isTurn m = true) :
    (handleMessage st u question llm).2.llmMessages =
      some (LMsg.system (promptHead ++
          joinSep ['\n', '\n'] ((chromaQueryModel es 3).map Entry.doc)) ::
        (((memOf st u).drop ((memOf st u).length - 6)).map msgToL ++
          [LMsg.human question])) := by
  rw [handleMessage_main llm hvs hes hq]
  have hsub : ∀ m ∈ pyTail 6 (memOf st u), isTurn m = true :=
    fun m hm => hturns m (List.drop_subset _ _ hm)
  rw [flatMap_convMsg_of_turns hsub]
  split <;> simp [pyTail]

/-- Claim C8 witness: for user 0 of `wState` (one indexed chunk `"hi"`, empty
history) asking `"ask"`, the sent message list is the system prompt holding
that chunk, no history, and the question. -/
theorem c8_prompt_assembly_witness :
    (handleMessage wState 0 ['a', 's', 'k'] wLlmOk).2.llmMessages =
      some (LMsg.system (promptHead ++
          joinSep ['\n', '\n'] ((chromaQueryModel [wEntry] 3).map Entry.doc)) ::
        (((memOf wState 0).drop ((memOf wState 0).length - 6)).map msgToL ++
          [LMsg.human ['a', 's', 'k']])) :=
  c8_prompt_assembly wState 0 ['a', 's', 'k'] wLlmOk [wEntry]
    (by decide) (by decide) (by decide) (by decide)

/-- One successful Answer step, in full: the vector store and temp files are
untouched and the history becomes the capped extension by the new pair. -/
theorem answerStep_state (st : BotState) (u : Int) (q a : List Char)
    (es : List Entry) (hvs : st.vs u = some es) (hes : es ≠ [])
    (hq : ¬ (pyStrip q).length < 3) :
    answerStep st u (q, a) =
      BotState.mk st.vs
        (upd st.mems u (some (memTrunc (memOf st u ++ [Msg.human q, Msg.ai a]))))
        st.tempFiles := by
  unfold answerStep
  rw [handleMessage_main (fun _ => Except.ok a) hvs hes hq]

/-- Claim C4: six successful Answer operations for a fresh user append 12
turns in total; the memory then holds exactly the most recent 10 turns, in
order (the first question/answer pair has been evicted). -/
theorem c4_memory_cap (st : BotState) (u : Int) (es : List Entry)
    (q1 a1 q2 a2 q3 a3 q4 a4 q5 a5 q6 a6 : List Char)
    (hvs : st.vs u = some es) (hes : es ≠ []) (hfresh : st.mems u = none)
    (hq1 : ¬ (pyStrip q1).length < 3) (hq2 : ¬ (pyStrip q2).length < 3)
    (hq3 : ¬ (pyStrip q3).length < 3) (hq4 : ¬ (pyStrip q4).length < 3)
    (hq5 : ¬ (pyStrip q5).length < 3) (hq6 : ¬ (pyStrip q6).length < 3) :
    memOf (List.foldl (fun s qa => answerStep s u qa) st
      [(q1, a1), (q2, a2), (q3, a3), (q4, a4), (q5, a5), (q6, a6)]) u =
      [Msg.human q2, Msg.ai a2, Msg.human q3, Msg.ai a3, Msg.human q4, Msg.ai a4,
       Msg.human q5, Msg.ai a5, Msg.human q6, Msg.ai a6] := by
  have step : ∀ (s : BotState) (q a : List Char), s.vs u = some es →
      ¬ (pyStrip q).length < 3 →
      (answerStep s u (q, a)).vs u = some es ∧
      memOf (answerStep s u (q, a)) u =
        memTrunc (memOf s u ++ [Msg.human q, Msg.ai a]) := by
    intro s q a hv hql
    rw [answerStep_state s u q a es hv hes hql]
    exact ⟨hv, by simp [memOf, upd]⟩
  have m0 : memOf st u = [] := by simp [memOf, hfresh]
  obtain ⟨v1, m1⟩ := step st q1 a1 hvs hq1
  obtain ⟨v2, m2⟩ := step _ q2 a2 v1 hq2
  obtain ⟨v3, m3⟩ := step _ q3 a3 v2 hq3
  obtain ⟨v4, m4⟩ := step _ q4 a4 v3 hq4
  obtain ⟨v5, m5⟩ := step _ q5 a5 v4 hq5
  obtain ⟨v6, m6⟩ := step _ q6 a6 v5 hq6
  simp only [List.foldl]
  rw [m6, m5, m4, m3, m2, m1, m0]
  simp [memTrunc, pyTail]

/-- Claim C4 witness: six concrete Answer rounds with question `"ask"` and
reply `"rep"` starting from `wState` leave exactly the last five pairs. -/
theorem c4_memory_cap_witness :
    memOf (List.foldl (fun s qa => answerStep s 0 qa) wState
      [(['a', 's', 'k'], ['r', '1']), (['a', 's', 'k'], ['r', '2']),
       (['a', 's', 'k'], ['r', '3']), (['a', 's', 'k'], ['r', '4']),
       (['a', 's', 'k'], ['r', '5']), (['a', 's', 'k'], ['r', '6'])]) 0 =
      [Msg.human ['a', 's', 'k'], Msg.ai ['r', '2'], Msg.human ['a', 's', 'k'],
       Msg.ai ['r', '3'], Msg.human ['a', 's', 'k'], Msg.ai ['r', '4'],
       Msg.human ['a', 's', 'k'], Msg.ai ['r', '5'], Msg.human ['a', 's', 'k'],
       Msg.ai ['r', '6']] :=
  c4_memory_cap wState 0 [wEntry] ['a', 's', 'k'] ['r', '1'] ['a', 's', 'k'] ['r', '2']
    ['a', 's', 'k'] ['r', '3'] ['a', 's', 'k'] ['r', '4'] ['a', 's', 'k'] ['r', '5']
    ['a', 's', 'k'] ['r', '6'] (by decide) (by decide) (by decide) (by decide)
    (by decide) (by decide) (by decide) (by decide) (by decide)

/-- Claim C10: when the completion service raises (here: an always-raising
service, which errors exactly when Answer reaches the invocation), the user's
conversation memory is unchanged: the question/answer pair is appended only
after a successful return, so a failed generation neither records the question
nor trims the history. -/
theorem c10_memory_unchanged_on_llm_error (st : BotState) (u : Int)
    (question e : List Char) :
    memOf (handleMessage st u question (fun _ => Except.error e)).1 u =
      memOf st u := by
  simp only [handleMessage]
  split_ifs
  · rfl
  · rfl
  · rfl
  · simp [memOf, upd]

/-- Claim C2: an ingest that fails before producing a valid non-empty chunk
set — extraction error, stripped text under 50 characters, or zero chunks —
leaves the user's prior collection and conversation memory exactly as they
were (only the temp-file entry has been recorded); on success the collection
is cleared only then, immediately before the add, so it ends up holding
exactly the new chunks with `{source, chunk_index}` metadata, and the
conversation memory is cleared. -/
theorem c2_ingest_failure_frame (st : BotState) (u : Int) (fileName : List Char)
    (extractResult : Except (List Char) (List Char)) (fuel : Nat)
    (st' : BotState) (oc : IngestOutcome)
    (h : handleDocument st u fileName extractResult fuel = some (st', oc)) :
    (∀ e, oc = IngestOutcome.extractError e →
      st'.vs u = st.vs u ∧ st'.mems u = st.mems u) ∧
    (oc = IngestOutcome.tooShort → st'.vs u = st.vs u ∧ st'.mems u = st.mems u) ∧
    (oc = IngestOutcome.noChunks → st'.vs u = st.vs u ∧ st'.mems u = st.mems u) ∧
    (∀ cc ck, oc = IngestOutcome.success cc ck →
      ∃ text chunks, extractResult = Except.ok text ∧
        splitTextIntoChunks fuel text CHUNK_SIZE CHUNK_OVERLAP = some chunks ∧
        chunks ≠ [] ∧
        st'.vs u = some (chunks.mapIdx (fun i c => Entry.mk c fileName i)) ∧
        st'.mems u = none) := by
  cases extractResult with
  | error e2 =>
    simp only [handleDocument, Option.some.injEq, Prod.mk.injEq] at h
    obtain ⟨h1, h2⟩ := h
    subst h1
    subst h2
    refine ⟨fun e he => ⟨rfl, rfl⟩, ?_, ?_, ?_⟩ <;> intros <;> simp_all
  | ok text =>
    simp only [handleDocument] at h
    split at h
    · simp only [Option.some.injEq, Prod.mk.injEq] at h
      obtain ⟨h1, h2⟩ := h
      subst h1
      subst h2
      refine ⟨?_, fun _ => ⟨rfl, rfl⟩, ?_, ?_⟩ <;> intros <;> simp_all
    · cases hsplit : splitTextIntoChunks fuel text CHUNK_SIZE CHUNK_OVERLAP with
      | none => rw [hsplit] at h; simp at h
      | some chunks =>
        rw [hsplit] at h
        simp only at h
        split at h
        · simp only [Option.some.injEq, Prod.mk.injEq] at h
          obtain ⟨h1, h2⟩ := h
          subst h1
          subst h2
          refine ⟨?_, ?_, fun _ => ⟨rfl, rfl⟩, ?_⟩ <;> intros <;> simp_all
        case isFalse hne =>
          simp only [Option.some.injEq, Prod.mk.injEq] at h
          obtain ⟨h1, h2⟩ := h
          subst h1
          subst h2
          refine ⟨?_, ?_, ?_, ?_⟩
          · intro e he
            exact absurd he (by simp)
          · intro he
            exact absurd he (by simp)
          · intro he
            exact absurd he (by simp)
          · intro cc ck _
            refine ⟨text, chunks, rfl, hsplit, hne, ?_, ?_⟩
            · have hmap : chunks.mapIdx (fun i c => Entry.mk c fileName i) ≠ [] := by
                intro hempty
                apply hne
                have hl := congrArg List.length hempty
                rw [List.length_mapIdx] at hl
                exact List.length_eq_zero.mp (by simpa using hl)
              simp [addDocuments, clearUserCollection, getOrCreateCollection,
                upd, hmap]
            · simp [upd]

/-- Claim C2 witness: re-ingesting a too-short document (`"hi"`) for user 0 of
`wState` reports the failure and leaves the prior collection and memory of
user 0 untouched. -/
theorem c2_ingest_failure_frame_witness :
    handleDocument wState 0 ['f'] (Except.ok ['h', 'i']) 5 =
      some (wStateAfterTemp, IngestOutcome.tooShort) ∧
    (wStateAfterTemp.vs 0 = wState.vs 0 ∧ wStateAfterTemp.mems 0 = wState.mems 0) :=
  ⟨rfl,
   (c2_ingest_failure_frame wState 0 ['f'] (Except.ok ['h', 'i']) 5
     wStateAfterTemp IngestOutcome.tooShort rfl).2.1 rfl⟩

/-- Lazily creating user `u`'s collection never touches another user's slot. -/
theorem getOrCreateCollection_frame (σ : VSState) (u v : Int) (h : v ≠ u) :
    (getOrCreateCollection σ u).1 v = σ v := by
  unfold getOrCreateCollection
  cases hs : σ u with
  | some es => rfl
  | none => exact upd_ne σ u v (some []) h

/-- Adding documents for user `u` never touches another user's slot. -/
theorem addDocuments_frame (σ : VSState) (u : Int) (entries : List Entry)
    (v : Int) (h : v ≠ u) : addDocuments σ u entries v = σ v := by
  simp only [addDocuments]
  split
  · rfl
  · rw [upd_ne _ _ _ _ h]
    exact getOrCreateCollection_frame σ u v h

/-- Claim C9: every operation performed for user `u` — ingest, answer, clear,
memory access — leaves the collection, conversation memory and temp-file entry
of any other user `v` unchanged; and the collection consulted for `u` is a
function of `u`'s own slot alone (two stores agreeing on `u` yield the same
collection). -/
theorem c9_user_isolation (st : BotState) (u v : Int) (hne : v ≠ u) :
    (∀ fileName extractResult fuel st' oc,
      handleDocument st u fileName extractResult fuel = some (st', oc) →
      st'.vs v = st.vs v ∧ st'.mems v = st.mems v ∧
        st'.tempFiles v = st.tempFiles v) ∧
    (∀ question llm,
      (handleMessage st u question llm).1.vs v = st.vs v ∧
      (handleMessage st u question llm).1.mems v = st.mems v ∧
      (handleMessage st u question llm).1.tempFiles v = st.tempFiles v) ∧
    ((clearCommand st u).vs v = st.vs v ∧ (clearCommand st u).mems v = st.mems v ∧
      (clearCommand st u).tempFiles v = st.tempFiles v) ∧
    ((getMemoryOp st u).1.vs v = st.vs v ∧ (getMemoryOp st u).1.mems v = st.mems v ∧
      (getMemoryOp st u).1.tempFiles v = st.tempFiles v) ∧
    (∀ σ σ2 : VSState, σ u = σ2 u →
      (getOrCreateCollection σ u).2 = (getOrCreateCollection σ2 u).2) := by
  refine ⟨?_, ?_, ?_, ?_, ?_⟩
  · intro fileName extractResult fuel st' oc h
    cases extractResult with
    | error e2 =>
      simp only [handleDocument, Option.some.injEq, Prod.mk.injEq] at h
      obtain ⟨h1, _⟩ := h
      subst h1
      exact ⟨rfl, rfl, upd_ne _ _ _ _ hne⟩
    | ok text =>
      simp only [handleDocument] at h
      split at h
      · simp only [Option.some.injEq, Prod.mk.injEq] at h
        obtain ⟨h1, _⟩ := h
        subst h1
        exact ⟨rfl, rfl, upd_ne _ _ _ _ hne⟩
      · cases hsplit : splitTextIntoChunks fuel text CHUNK_SIZE CHUNK_OVERLAP with
        | none => rw [hsplit] at h; simp at h
        | some chunks =>
          rw [hsplit] at h
          simp only at h
          split at h
          · simp only [Option.some.injEq, Prod.mk.injEq] at h
            obtain ⟨h1, _⟩ := h
            subst h1
            exact ⟨rfl, rfl, upd_ne _ _ _ _ hne⟩
          · simp only [Option.some.injEq, Prod.mk.injEq] at h
            obtain ⟨h1, _⟩ := h
            subst h1
            refine ⟨?_, upd_ne _ _ _ _ hne, upd_ne _ _ _ _ hne⟩
            dsimp only
            rw [addDocuments_frame _ _ _ _ hne]
            exact upd_ne _ _ _ _ hne
  · intro question llm
    have hgc : (getCollectionCount st.vs u).1 v = st.vs v := by
      simp only [getCollectionCount]
      exact getOrCreateCollection_frame st.vs u v hne
    have hsearch : ∀ σ : VSState, (searchStore σ u question 3).1 v = σ v :=
      fun σ => getOrCreateCollection_frame σ u v hne
    simp only [handleMessage]
    split_ifs
    · exact ⟨rfl, rfl, rfl⟩
    · exact ⟨hgc, rfl, rfl⟩
    · refine ⟨?_, rfl, rfl⟩
      dsimp only
      rw [hsearch]
      exact hgc
    · split
      · refine ⟨?_, ?_, rfl⟩
        · dsimp only
          rw [hsearch]
          exact hgc
        · exact upd_ne _ _ _ _ hne
      · refine ⟨?_, ?_, rfl⟩
        · dsimp only
          rw [hsearch]
          exact hgc
        · dsimp only
          rw [upd_ne _ _ _ _ hne]
          exact upd_ne _ _ _ _ hne
  · exact ⟨upd_ne _ _ _ _ hne, upd_ne _ _ _ _ hne, upd_ne _ _ _ _ hne⟩
  · exact ⟨rfl, upd_ne _ _ _ _ hne, rfl⟩
  · intro σ σ2 hσ
    unfold getOrCreateCollection
    rw [hσ]
    cases σ2 u <;> rfl

/-- Claim C9 witness: clearing user 0 of `wState` leaves user 1's collection,
memory and temp-file entry unchanged. -/
theorem c9_user_isolation_witness :
    (clearCommand wState 0).vs 1 = wState.vs 1 ∧
    (clearCommand wState 0).mems 1 = wState.mems 1 ∧
    (clearCommand wState 0).tempFiles 1 = wState.tempFiles 1 :=
  (c9_user_isolation wState 0 1 (by decide)).2.2.1
